import Mathlib

/-!
Verification development for the STL-to-voxel converter
(source: src/stl_file_to_minecraft.py).

The source is a single Python program.  It is embedded shallowly:

* Python numbers that flow through parsing and the affine transform are
  modelled as exact rationals.  The program decodes IEEE-754 binary32
  fields from the binary STL format; each finite float32 value is an exact
  rational, and the decoder below produces exactly that rational.
  Non-finite values (infinities, NaNs) cannot be rounded by Python's
  built-in round, which raises there; the model signals that case as an
  error at the point where the value is produced.  Intermediate float
  arithmetic is modelled as exact rational arithmetic.
* After the transform, every vertex component has been produced by
  Python's round, which returns an int.  The voxelizer therefore works on
  integer triples, exactly as in every execution of the program.
* The blocks dictionary only ever maps keys to 1 and is consumed as a key
  set, so it is modelled as a Finset of integer triples.
* Python exceptions are modelled with Except over an error enumeration
  mirroring the exception classes the program can raise.
-/

/-- Error kinds corresponding to the Python exceptions reachable in the
parsing code: struct.error from a short unpack, ValueError from float()
on a bad literal or from rounding a non-finite value, IndexError from
indexing a too-short vertex token list, and UnicodeDecodeError from
bytes.decode. -/
inductive PErr where
  | structError
  | valueError
  | indexError
  | unicodeDecodeError
deriving DecidableEq, Repr

/-- Integer 3-vector: the type of transformed, rounded vertices and of
voxel coordinates (keys of the blocks dict). -/
abbrev V3 : Type := ℤ × ℤ × ℤ

/-- Rational 3-vector: the type of raw parsed vertices and of the
configuration vectors before rounding. -/
abbrev RV3 : Type := ℚ × ℚ × ℚ

/-- Componentwise addition, Vector.add in the source. -/
def vadd (a b : RV3) : RV3 := (a.1 + b.1, a.2.1 + b.2.1, a.2.2 + b.2.2)

/-- Vector.scalar_mult in the source: multiply each component by a scalar. -/
def vscale (v : RV3) (c : ℚ) : RV3 := (v.1 * c, v.2.1 * c, v.2.2 * c)

/-- Python round of an exact rational: round half to even, returning an
integer, as Python's built-in round does on a number. -/
def roundQ (q : ℚ) : ℤ :=
  let f : ℤ := q.floor
  let r : ℚ := q - (f : ℚ)
  if r < 1 / 2 then f
  else if 1 / 2 < r then f + 1
  else if f % 2 = 0 then f else f + 1

/-- Configuration of the transform: origin vector and the three unit
vectors, parsed from the command line in main.  The program defaults are
origin (0,0,0), x unit (1,0,0), y unit (0,0,1), z unit (0,1,0). -/
structure Config where
  origin : RV3
  ux : RV3
  uy : RV3
  uz : RV3

/-- The program's default configuration (argparse defaults). -/
def cfg0 : Config := ⟨(0, 0, 0), (1, 0, 0), (0, 0, 1), (0, 1, 0)⟩

/-- transform in the source: map a raw vertex (x,y,z) to
round(x*ux + y*uy + z*uz + origin), built exactly as the source chain
unit_vectors[0].scalar_mult(vertex[0]).add(...).add(origin_vector).round().
round returns Python ints, hence the codomain V3. -/
def transform (w : RV3) (cfg : Config) : V3 :=
  let s := vadd (vadd (vadd (vscale cfg.ux w.1) (vscale cfg.uy w.2.1)) (vscale cfg.uz w.2.2)) cfg.origin
  (roundQ s.1, roundQ s.2.1, roundQ s.2.2)

/-- Triangle as in the source class: three transformed vertices. -/
structure Triangle where
  v1 : V3
  v2 : V3
  v3 : V3
deriving DecidableEq, Repr

/-- Byte of a byte list at an offset, 0 past the end (only used at
offsets that were checked to be in range). -/
def byteAt (data : List ℕ) (i : ℕ) : ℕ := data.getD i 0

/-- Bits of the little-endian 32-bit word at an offset, as read by
struct.unpack with a less-than format. -/
def f32Bits (data : List ℕ) (pos : ℕ) : ℕ :=
  byteAt data pos + 256 * byteAt data (pos + 1) + 65536 * byteAt data (pos + 2) +
    16777216 * byteAt data (pos + 3)

/-- Exact value of an IEEE-754 binary32 bit pattern, none when the
pattern is an infinity or NaN (exponent field all ones); Python's round
raises on those values, which the model surfaces as an error where the
value would be consumed. -/
def decodeF32 (bits : ℕ) : Option ℚ :=
  let sgn : ℚ := if bits / 2 ^ 31 % 2 = 1 then -1 else 1
  let expo : ℕ := bits / 2 ^ 23 % 256
  let frac : ℕ := bits % 2 ^ 23
  if expo = 255 then none
  else if expo = 0 then some (sgn * (frac : ℚ) / 2 ^ 149)
  else some (sgn * ((2 ^ 23 + frac : ℕ) : ℚ) * (2 : ℚ) ^ ((expo : ℤ) - 150))

/-- The three little-endian float32 fields of a 12-byte vertex record
starting at pos, none if any is non-finite. -/
def decodeVec (data : List ℕ) (pos : ℕ) : Option RV3 :=
  match decodeF32 (f32Bits data pos), decodeF32 (f32Bits data (pos + 4)),
      decodeF32 (f32Bits data (pos + 8)) with
  | some x, some y, some z => some (x, y, z)
  | _, _, _ => none

/-- Strict UTF-8 decoder state machine, one byte per step, as performed
by Python bytes.decode with the utf-8 codec: need counts the remaining
continuation bytes of the current character, acc its accumulated value,
and lo/hi bound the next byte (the first continuation byte of a sequence
carries tightened bounds that exclude overlong encodings, surrogates and
code points above U+10FFFF).  Returns the decoded code points, none on
any malformed byte. -/
def utf8Run : List ℕ → ℕ → ℕ → ℕ → ℕ → Option (List ℕ)
  | [], 0, _, _, _ => some []
  | [], _ + 1, _, _, _ => none
  | b :: bs, 0, _, _, _ =>
    if b < 128 then (b :: ·) <$> utf8Run bs 0 0 0 0
    else if 194 ≤ b ∧ b ≤ 223 then utf8Run bs 1 (b - 192) 128 191
    else if b = 224 then utf8Run bs 2 0 160 191
    else if (225 ≤ b ∧ b ≤ 236) ∨ b = 238 ∨ b = 239 then utf8Run bs 2 (b - 224) 128 191
    else if b = 237 then utf8Run bs 2 13 128 159
    else if b = 240 then utf8Run bs 3 0 144 191
    else if 241 ≤ b ∧ b ≤ 243 then utf8Run bs 3 (b - 240) 128 191
    else if b = 244 then utf8Run bs 3 4 128 143
    else none
  | b :: bs, k + 1, acc, lo, hi =>
    if lo ≤ b ∧ b ≤ hi then
      let acc2 := acc * 64 + (b - 128)
      match k with
      | 0 => (acc2 :: ·) <$> utf8Run bs 0 0 0 0
      | k' + 1 => utf8Run bs (k' + 1) acc2 128 191
    else none

/-- Python bytes.decode("utf-8"), producing the code point sequence. -/
def decodeUtf8 (bytes : List ℕ) : Option (List ℕ) := utf8Run bytes 0 0 0 0

/-- The code points of the string solid, compared against the decoded
5-byte header prefix in main. -/
def solidCp : List ℕ := [115, 111, 108, 105, 100]

/-- The code points of the string endsolid, compared against the start
of each facet line in parse_ascii. -/
def endsolidCp : List ℕ := [101, 110, 100, 115, 111, 108, 105, 100]

/-- Python str.startswith on code point lists. -/
def leadsWith : List ℕ → List ℕ → Bool
  | [], _ => true
  | _ :: _, [] => false
  | p :: ps, c :: cs => p = c && leadsWith ps cs

/-- Code points Python str.split treats as whitespace (the ASCII ones
plus the BMP space characters; only space and the line terminator occur
in the inputs this program reads). -/
def isSpaceCp (c : ℕ) : Bool :=
  (9 ≤ c && c ≤ 13) || (28 ≤ c && c ≤ 32) || c = 133 || c = 160 || c = 5760 ||
    (8192 ≤ c && c ≤ 8202) || c = 8232 || c = 8233 || c = 8239 || c = 8287 || c = 12288

/-- Worker for whitespace splitting: cur is the current token reversed. -/
def splitWsGo : List ℕ → List ℕ → List (List ℕ)
  | [], cur => if cur.isEmpty then [] else [cur.reverse]
  | c :: cs, cur =>
    if isSpaceCp c then
      if cur.isEmpty then splitWsGo cs [] else cur.reverse :: splitWsGo cs []
    else splitWsGo cs (c :: cur)

/-- Python str.split with no arguments: split on whitespace runs,
dropping empty tokens. -/
def splitWs (cps : List ℕ) : List (List ℕ) := splitWsGo cps []

/-- Worker for line splitting: cur is the current line reversed.  Lines
keep their terminating newline byte, and a final line without a newline
is returned as is, matching repeated readline calls on a binary file. -/
def splitLinesGo : List ℕ → List ℕ → List (List ℕ)
  | [], cur => if cur.isEmpty then [] else [cur.reverse]
  | b :: bs, cur =>
    if b = 10 then (b :: cur).reverse :: splitLinesGo bs []
    else splitLinesGo bs (b :: cur)

/-- The byte stream as the sequence of lines readline would return. -/
def splitLines (data : List ℕ) : List (List ℕ) := splitLinesGo data []

/-- readline on a line list: the next line, or an empty read at end of
file, plus the remaining lines. -/
def nextLine : List (List ℕ) → List ℕ × List (List ℕ)
  | [] => ([], [])
  | l :: ls => (l, ls)

/-- Decimal digit run at the front of a code point list: digits and rest. -/
def takeDigits : List ℕ → List ℕ × List ℕ
  | [] => ([], [])
  | c :: cs =>
    if 48 ≤ c ∧ c ≤ 57 then
      let (ds, rest) := takeDigits cs
      (c :: ds, rest)
    else ([], c :: cs)

/-- Numeric value of a decimal digit code point run. -/
def digitsToNat (ds : List ℕ) : ℕ := ds.foldl (fun acc c => acc * 10 + (c - 48)) 0

/-- Python float() on a token, as an exact rational: optional surrounding
whitespace, optional sign, integer digits, optional fraction, optional
decimal exponent; none when the token does not parse.  Digit-group
underscores and the inf/nan spellings are not modelled: the former do not
occur in STL numeric fields, and the latter denote non-finite values
whose rounding raises, which the model reports as the same error kind at
conversion. -/
def floatOfCps (cps : List ℕ) : Option ℚ :=
  let l := (cps.dropWhile isSpaceCp).reverse.dropWhile isSpaceCp |>.reverse
  let (sgn, l1) : ℚ × List ℕ :=
    match l with
    | 43 :: t => (1, t)
    | 45 :: t => (-1, t)
    | _ => (1, l)
  let (ip, l2) := takeDigits l1
  let (fp, l3) :=
    match l2 with
    | 46 :: t => takeDigits t
    | _ => ([], l2)
  let hadDot : Bool := match l2 with | 46 :: _ => true | _ => false
  if ip.isEmpty ∧ fp.isEmpty then none
  else
    let mant : ℚ := sgn * ((digitsToNat ip : ℚ) + (digitsToNat fp : ℚ) / 10 ^ fp.length)
    match l3 with
    | [] => some mant
    | e :: t =>
      if (e = 101 ∨ e = 69) ∧ (hadDot ∨ ¬ip.isEmpty) then
        let (esgn, t1) : ℤ × List ℕ :=
          match t with
          | 43 :: t' => (1, t')
          | 45 :: t' => (-1, t')
          | _ => (1, t)
        let (ed, t2) := takeDigits t1
        if ed.isEmpty ∨ ¬t2.isEmpty then none
        else some (mant * (10 : ℚ) ^ (esgn * (digitsToNat ed : ℤ)))
      else none

/-- A binary file handle: the underlying bytes and the read position. -/
structure FH where
  data : List ℕ
  pos : ℕ
deriving DecidableEq, Repr

/-- fh.tell(). -/
def FH.tell (fh : FH) : ℕ := fh.pos

/-- fh.read(n): up to n bytes from the position, advancing it by the
number of bytes actually available. -/
def FH.read (fh : FH) (n : ℕ) : List ℕ × FH :=
  ((fh.data.drop fh.pos).take n, ⟨fh.data, min (fh.pos + n) fh.data.length⟩)

/-- fh.seek(p). -/
def FH.seek (fh : FH) (p : ℕ) : FH := ⟨fh.data, p⟩

/-- peek in the source: remember the position, read, seek back. -/
def peek (fh : FH) (length : ℕ) : List ℕ × FH :=
  let position := fh.tell
  let d := (fh.read length).1
  let fh2 := (fh.read length).2
  (d, fh2.seek position)

/-- The declared triangle count of a binary STL stream: the little-endian
uint32 at offset 80, just after the 80-byte header. -/
def u32count (data : List ℕ) : ℕ :=
  byteAt data 80 + 256 * byteAt data 81 + 65536 * byteAt data 82 + 16777216 * byteAt data 83

/-- One 50-byte binary record at pos, as consumed by one iteration of the
parse_binary loop: the source performs five sequential unpacks (normal,
three vertices, attribute) each of which raises struct.error on a short
read, collapsed here into one length check over the record span; the
normal and attribute fields are decoded and discarded.  The three
vertices are then transformed; rounding a non-finite float32 raises in
Python, surfaced as valueError. -/
def parseRecord (data : List ℕ) (pos : ℕ) (cfg : Config) : Except PErr Triangle :=
  if data.length < pos + 50 then .error .structError
  else
    match decodeVec data (pos + 12), decodeVec data (pos + 24), decodeVec data (pos + 36) with
    | some w1, some w2, some w3 =>
      .ok ⟨transform w1 cfg, transform w2 cfg, transform w3 cfg⟩
    | _, _, _ => .error .valueError

/-- The parse_binary loop body for k remaining iterations starting at
byte offset pos, appending the parsed triangles in order. -/
def parseRecords (data : List ℕ) (cfg : Config) : ℕ → ℕ → Except PErr (List Triangle)
  | _, 0 => .ok []
  | pos, k + 1 =>
    match parseRecord data pos cfg with
    | .error e => .error e
    | .ok t =>
      match parseRecords data cfg (pos + 50) k with
      | .error e => .error e
      | .ok ts => .ok (t :: ts)

/-- parse_binary in the source: read and discard the 80-byte header (a
short header read does not raise), unpack the uint32 triangle count
(struct.error when fewer than 4 bytes remain, that is when the stream is
shorter than 84 bytes), then run the loop for count in range(1, n): n - 1
iterations for n at least 1 and none for n = 0, which natural
subtraction renders as n - 1 in both cases. -/
def parse_binary (data : List ℕ) (cfg : Config) : Except PErr (List Triangle) :=
  if data.length < 84 then .error .structError
  else parseRecords data cfg 84 (u32count data - 1)

/-- The tokens a vertex line contributes: decode the line, split on
whitespace, take tokens 1 to 3 (slice [1:4]), convert each in order with
float(); the first unconvertible token raises ValueError. -/
def vertexFloats (line : List ℕ) : Except PErr (List ℚ) :=
  match decodeUtf8 line with
  | none => .error .unicodeDecodeError
  | some cps =>
    let toks := ((splitWs cps).drop 1).take 3
    toks.foldr
      (fun tok acc =>
        match floatOfCps tok with
        | none => .error .valueError
        | some q =>
          match acc with
          | .error e => .error e
          | .ok qs => .ok (q :: qs))
      (.ok [])

/-- transform applied to a converted vertex token list: the source
indexes vertex[0], vertex[1], vertex[2], so fewer than three tokens
raises IndexError. -/
def transformToks (fs : List ℚ) (cfg : Config) : Except PErr V3 :=
  match fs with
  | x :: y :: z :: _ => .ok (transform (x, y, z) cfg)
  | _ => .error .indexError

/-- The parse_ascii facet loop over the remaining lines.  Each iteration
takes one line as the facet-normal line (decoding it; a line starting
with endsolid ends the loop), then consumes six more lines via readline:
the outer-loop line (discarded unchecked), three vertex lines (decoded
at read time), and the endloop and endfacet lines (discarded unchecked);
readline past end of file yields an empty line.  The three vertex lines
are then converted to floats in order and transformed in order.  When
the line iterator is exhausted the loop simply ends, returning the
triangles collected so far.  fuel bounds the recursion; it is consumed
one line per iteration while each iteration consumes at least one line,
so starting fuel at the line count never exhausts it early. -/
def loopFacets (cfg : Config) : ℕ → List (List ℕ) → Except PErr (List Triangle)
  | _, [] => .ok []
  | 0, _ :: _ => .ok []
  | fuel + 1, nv :: rest =>
    match decodeUtf8 nv with
    | none => .error .unicodeDecodeError
    | some s =>
      if leadsWith endsolidCp s then .ok []
      else
        let r1 := (nextLine rest).2
        let lv1 := (nextLine r1).1
        let r2 := (nextLine r1).2
        let lv2 := (nextLine r2).1
        let r3 := (nextLine r2).2
        let lv3 := (nextLine r3).1
        let r4 := (nextLine r3).2
        let r5 := (nextLine r4).2
        let r6 := (nextLine r5).2
        match vertexFloats lv1 with
        | .error e => .error e
        | .ok f1 =>
          match vertexFloats lv2 with
          | .error e => .error e
          | .ok f2 =>
            match vertexFloats lv3 with
            | .error e => .error e
            | .ok f3 =>
              match transformToks f1 cfg with
              | .error e => .error e
              | .ok w1 =>
                match transformToks f2 cfg with
                | .error e => .error e
                | .ok w2 =>
                  match transformToks f3 cfg with
                  | .error e => .error e
                  | .ok w3 =>
                    match loopFacets cfg fuel r6 with
                    | .error e => .error e
                    | .ok ts => .ok (⟨w1, w2, w3⟩ :: ts)

/-- parse_ascii in the source: readline the header (read raw, not
decoded), then iterate the facet loop over the remaining lines. -/
def parse_ascii (data : List ℕ) (cfg : Config) : Except PErr (List Triangle) :=
  match splitLines data with
  | [] => .ok []
  | _hdr :: rest => loopFacets cfg rest.length rest

/-- The parse dispatch in main: peek 5 bytes without consuming, decode
them (an undecodable prefix raises UnicodeDecodeError outside any
handler), compare with solid; on a match run parse_ascii under a handler
that catches only UnicodeDecodeError and falls back to parse_binary
after seeking back to the start; otherwise run parse_binary. -/
def mainParse (data : List ℕ) (cfg : Config) : Except PErr (List Triangle) :=
  match decodeUtf8 (peek ⟨data, 0⟩ 5).1 with
  | none => .error .unicodeDecodeError
  | some s =>
    if s = solidCp then
      match parse_ascii data cfg with
      | .error e => if e = .unicodeDecodeError then parse_binary data cfg else .error e
      | .ok ts => .ok ts
    else parse_binary data cfg

/-- dv in compute_line_blocks and compute_triangle_blocks:
v2.sub(v1).abs(), the componentwise absolute difference. -/
def deltaAbs (a b : V3) : V3 := (|b.1 - a.1|, |b.2.1 - a.2.1|, |b.2.2 - a.2.2|)

/-- max_delta: max(dv.points), the maximum over the three components. -/
def maxDelta (a b : V3) : ℤ :=
  max (max (deltaAbs a b).1 (deltaAbs a b).2.1) (deltaAbs a b).2.2

/-- x_step: float(dv.points[0]) / float(max_delta) times 1 if
v2.points[0] - v1.points[0] > 0 else -1, as an exact rational. -/
def xStep (a b : V3) : ℚ :=
  ((deltaAbs a b).1 : ℚ) / (maxDelta a b : ℚ) * (if 0 < b.1 - a.1 then 1 else -1)

/-- y_step, analogously. -/
def yStep (a b : V3) : ℚ :=
  ((deltaAbs a b).2.1 : ℚ) / (maxDelta a b : ℚ) * (if 0 < b.2.1 - a.2.1 then 1 else -1)

/-- z_step, analogously. -/
def zStep (a b : V3) : ℚ :=
  ((deltaAbs a b).2.2 : ℚ) / (maxDelta a b : ℚ) * (if 0 < b.2.2 - a.2.2 then 1 else -1)

/-- The point emitted at loop index step in both sweep loops:
(round(v1.x + step*x_step), round(v1.y + step*y_step),
round(v1.z + step*z_step)). -/
def stepPoint (a b : V3) (step : ℕ) : V3 :=
  (roundQ ((a.1 : ℚ) + step * xStep a b),
   roundQ ((a.2.1 : ℚ) + step * yStep a b),
   roundQ ((a.2.2 : ℚ) + step * zStep a b))

/-- compute_line_blocks: if dv is the zero vector, insert v1 itself;
otherwise insert the stepped, rounded points for step in
range(0, max_delta).  max_delta is a nonnegative int here, so toNat is
exact. -/
def compute_line_blocks (v1 v2 : V3) (blocks : Finset V3) : Finset V3 :=
  if deltaAbs v1 v2 = ((0 : ℤ), (0 : ℤ), (0 : ℤ)) then insert v1 blocks
  else
    (List.range (maxDelta v1 v2).toNat).foldl
      (fun acc step => insert (stepPoint v1 v2 step) acc) blocks

/-- compute_triangle_blocks: same head as compute_line_blocks, but in
the stepping branch each stepped point is connected to v3 with
compute_line_blocks. -/
def compute_triangle_blocks (v1 v2 v3 : V3) (blocks : Finset V3) : Finset V3 :=
  if deltaAbs v1 v2 = ((0 : ℤ), (0 : ℤ), (0 : ℤ)) then insert v1 blocks
  else
    (List.range (maxDelta v1 v2).toNat).foldl
      (fun acc step => compute_line_blocks (stepPoint v1 v2 step) v3 acc) blocks

/-- compute_blocks: the three rotated sweeps, threaded through the same
accumulator in source order. -/
def compute_blocks (t : Triangle) (blocks : Finset V3) : Finset V3 :=
  compute_triangle_blocks t.v3 t.v1 t.v2
    (compute_triangle_blocks t.v2 t.v3 t.v1
      (compute_triangle_blocks t.v1 t.v2 t.v3 blocks))

/-- A bounding-box accumulator component: None before the first sample. -/
abbrev OV3 : Type := Option ℤ × Option ℤ × Option ℤ

/-- Vector.min on one component pair: an unset side yields the other
side's value, otherwise the minimum. -/
def omin : Option ℤ → Option ℤ → Option ℤ
  | none, b => b
  | some x, none => some x
  | some x, some y => some (min x y)

/-- Vector.max on one component pair, analogously. -/
def omax : Option ℤ → Option ℤ → Option ℤ
  | none, b => b
  | some x, none => some x
  | some x, some y => some (max x y)

/-- A componentwise merge of two bound vectors with the given component
operation (Vector.min and Vector.max loop over the three dimensions). -/
def ovApply (op : Option ℤ → Option ℤ → Option ℤ) (m v : OV3) : OV3 :=
  (op m.1 v.1, op m.2.1 v.2.1, op m.2.2 v.2.2)

/-- A triangle vertex as a fully set bound vector. -/
def inj (v : V3) : OV3 := (some v.1, some v.2.1, some v.2.2)

/-- The main loop's bound accumulation over a triangle list, starting
from Vector([None, None, None]) and merging v1, v2, v3 of each triangle
in order with the given component operation. -/
def ovFold (op : Option ℤ → Option ℤ → Option ℤ) (ts : List Triangle) : OV3 :=
  ts.foldl
    (fun m t => ovApply op (ovApply op (ovApply op m (inj t.v1)) (inj t.v2)) (inj t.v3))
    (none, none, none)

/-- min_vector after the main loop. -/
def runMin (ts : List Triangle) : OV3 := ovFold omin ts

/-- max_vector after the main loop. -/
def runMax (ts : List Triangle) : OV3 := ovFold omax ts

/-- The reported bounding box: min_vector and max_vector together. -/
def runBounds (ts : List Triangle) : OV3 × OV3 := (runMin ts, runMax ts)

/-- The x components of all vertices of a triangle list, in processing
order. -/
def compsX (ts : List Triangle) : List ℤ :=
  ts.foldr (fun t acc => t.v1.1 :: t.v2.1 :: t.v3.1 :: acc) []

/-- The y components of all vertices, in processing order. -/
def compsY (ts : List Triangle) : List ℤ :=
  ts.foldr (fun t acc => t.v1.2.1 :: t.v2.2.1 :: t.v3.2.1 :: acc) []

/-- The z components of all vertices, in processing order. -/
def compsZ (ts : List Triangle) : List ℤ :=
  ts.foldr (fun t acc => t.v1.2.2 :: t.v2.2.2 :: t.v3.2.2 :: acc) []

/-- Folding one bound component over a flat list of seen values. -/
def lFold (op : Option ℤ → Option ℤ → Option ℤ) (l : List ℤ) : Option ℤ :=
  l.foldl (fun o z => op o (some z)) none

/-- The set of voxels one compute_line_blocks sweep contributes, apart
from the incoming accumulator. -/
def lineSet (a b : V3) : Finset V3 :=
  if deltaAbs a b = ((0 : ℤ), (0 : ℤ), (0 : ℤ)) then {a}
  else ((List.range (maxDelta a b).toNat).map (stepPoint a b)).toFinset

/-- The set of voxels one compute_triangle_blocks sweep contributes,
apart from the incoming accumulator. -/
def triSet (a b c : V3) : Finset V3 :=
  if deltaAbs a b = ((0 : ℤ), (0 : ℤ), (0 : ℤ)) then {a}
  else
    (List.range (maxDelta a b).toNat).foldl
      (fun acc step => acc ∪ lineSet (stepPoint a b step) c) ∅

/-- Generalized component fold with an arbitrary start accumulator. -/
def lFoldFrom (op : Option ℤ → Option ℤ → Option ℤ) (o : Option ℤ) (l : List ℤ) : Option ℤ :=
  l.foldl (fun o z => op o (some z)) o

/-- A binary stream declaring one triangle and containing none: an
all-zero 80-byte header followed by the little-endian count 1. -/
def binCount1 : List ℕ := List.replicate 80 0 ++ [1, 0, 0, 0]

/-- A binary stream declaring two triangles and containing one all-zero
50-byte record. -/
def binCount2 : List ℕ := List.replicate 80 0 ++ [2, 0, 0, 0] ++ List.replicate 50 0

/-- A binary stream whose first byte is 0xFF: not the solid signature,
and not decodable as UTF-8.  Its remaining 83 bytes form a valid header
remainder and the little-endian count 1, so parse_binary accepts it. -/
def binBadPrefix : List ℕ := 255 :: (List.replicate 79 0 ++ [1, 0, 0, 0])

/-- The bytes of a well-formed one-facet ASCII STL stream that is
truncated before its endsolid terminator: solid t, one complete facet
block, end of file. -/
def asciiTruncated : List ℕ :=
  [115, 111, 108, 105, 100, 32, 116, 10,
   102, 97, 99, 101, 116, 32, 110, 111, 114, 109, 97, 108, 32, 48, 32, 48, 32, 48, 10,
   111, 117, 116, 101, 114, 32, 108, 111, 111, 112, 10,
   118, 101, 114, 116, 101, 120, 32, 48, 32, 48, 32, 48, 10,
   118, 101, 114, 116, 101, 120, 32, 49, 32, 48, 32, 48, 10,
   118, 101, 114, 116, 101, 120, 32, 48, 32, 49, 32, 48, 10,
   101, 110, 100, 108, 111, 111, 112, 10,
   101, 110, 100, 102, 97, 99, 101, 116, 10]

/-- The bytes of a complete ASCII STL stream whose first vertex line
carries the unparseable numeric literal abc. -/
def asciiBadLiteral : List ℕ :=
  [115, 111, 108, 105, 100, 32, 116, 10,
   102, 97, 99, 101, 116, 32, 110, 111, 114, 109, 97, 108, 32, 48, 32, 48, 32, 48, 10,
   111, 117, 116, 101, 114, 32, 108, 111, 111, 112, 10,
   118, 101, 114, 116, 101, 120, 32, 97, 98, 99, 32, 48, 32, 48, 10,
   118, 101, 114, 116, 101, 120, 32, 49, 32, 48, 32, 48, 10,
   118, 101, 114, 116, 101, 120, 32, 48, 32, 49, 32, 48, 10,
   101, 110, 100, 108, 111, 111, 112, 10,
   101, 110, 100, 102, 97, 99, 101, 116, 10,
   101, 110, 100, 115, 111, 108, 105, 100, 32, 116, 10]

/-- The bytes solid, a line terminator, then an undecodable byte on the
next line: the header signature matches, and parse_ascii hits
UnicodeDecodeError on the first facet line. -/
def asciiUndecodable : List ℕ := [115, 111, 108, 105, 100, 10, 255, 10]

/-- All nine vertex float32 fields of the record at pos are finite, so
that rounding them cannot raise. -/
def recordOk (data : List ℕ) (pos : ℕ) : Bool :=
  (decodeVec data (pos + 12)).isSome && (decodeVec data (pos + 24)).isSome &&
    (decodeVec data (pos + 36)).isSome

/-- All records of k consecutive 50-byte records starting at pos carry
finite vertex floats. -/
def recordsOk (data : List ℕ) : ℕ → ℕ → Bool
  | _, 0 => true
  | pos, k + 1 => recordOk data pos && recordsOk data (pos + 50) k

/-- Parse results can be compared by evaluation. -/
instance {ε α : Type} [DecidableEq ε] [DecidableEq α] : DecidableEq (Except ε α)
  | .error a, .error b =>
    if h : a = b then .isTrue (by rw [h]) else .isFalse (by intro hc; injection hc; contradiction)
  | .error _, .ok _ => .isFalse (by intro hc; injection hc)
  | .ok _, .error _ => .isFalse (by intro hc; injection hc)
  | .ok a, .ok b =>
    if h : a = b then .isTrue (by rw [h]) else .isFalse (by intro hc; injection hc; contradiction)

/-- Folds of pointwise-equal step functions agree. -/
lemma foldl_fun_congr {α β : Type} (f g : β → α → β) (h : ∀ s x, f s x = g s x) :
    ∀ (l : List α) (s : β), l.foldl f s = l.foldl g s := by
  intro l
  induction l with
  | nil => intro s; rfl
  | cons a l ih => intro s; simp only [List.foldl_cons, h s a, ih]

/-- A fold that inserts f of each element equals the start set unioned
with the image of the list under f. -/
lemma foldl_insert_eq {α β : Type} [DecidableEq β] (f : α → β) :
    ∀ (l : List α) (s : Finset β),
      l.foldl (fun acc x => insert (f x) acc) s = s ∪ (l.map f).toFinset := by
  intro l
  induction l with
  | nil => intro s; simp
  | cons a l ih =>
    intro s
    simp only [List.foldl_cons, ih, List.map_cons, List.toFinset_cons]
    rw [Finset.union_insert, Finset.insert_union]

/-- A fold that unions a contribution per element equals the start set
unioned with the same fold started from the empty set. -/
lemma foldl_union_eq {α β : Type} [DecidableEq β] (h : α → Finset β) :
    ∀ (l : List α) (s : Finset β),
      l.foldl (fun acc x => acc ∪ h x) s = s ∪ l.foldl (fun acc x => acc ∪ h x) ∅ := by
  intro l
  induction l with
  | nil => intro s; simp
  | cons a l ih =>
    intro s
    simp only [List.foldl_cons]
    rw [ih (s ∪ h a), ih (∅ ∪ h a), Finset.empty_union, Finset.union_assoc]

/-- compute_line_blocks only adds its contribution to the accumulator. -/
lemma clb_eq (a b : V3) (s : Finset V3) :
    compute_line_blocks a b s = s ∪ lineSet a b := by
  by_cases h : deltaAbs a b = ((0 : ℤ), (0 : ℤ), (0 : ℤ))
  · simp only [compute_line_blocks, lineSet, if_pos h]
    rw [Finset.insert_eq, Finset.union_comm]
  · simp only [compute_line_blocks, lineSet, if_neg h]
    exact foldl_insert_eq _ _ _

/-- compute_triangle_blocks only adds its contribution to the
accumulator. -/
lemma ctb_eq (a b c : V3) (s : Finset V3) :
    compute_triangle_blocks a b c s = s ∪ triSet a b c := by
  by_cases h : deltaAbs a b = ((0 : ℤ), (0 : ℤ), (0 : ℤ))
  · simp only [compute_triangle_blocks, triSet, if_pos h]
    rw [Finset.insert_eq, Finset.union_comm]
  · simp only [compute_triangle_blocks, triSet, if_neg h]
    rw [foldl_fun_congr _ (fun acc step => acc ∪ lineSet (stepPoint a b step) c)
      (fun s step => clb_eq (stepPoint a b step) c s)]
    exact foldl_union_eq _ _ _

/-- compute_blocks decomposed into the accumulator plus the three
rotated sweep contributions. -/
lemma cb_eq (t : Triangle) (s : Finset V3) :
    compute_blocks t s =
      s ∪ (triSet t.v1 t.v2 t.v3 ∪ triSet t.v2 t.v3 t.v1 ∪ triSet t.v3 t.v1 t.v2) := by
  simp only [compute_blocks, ctb_eq, Finset.union_assoc]

/-- dv is the zero vector exactly when the two endpoints coincide. -/
lemma deltaAbs_eq_zero_iff (a b : V3) :
    deltaAbs a b = ((0 : ℤ), (0 : ℤ), (0 : ℤ)) ↔ a = b := by
  simp only [deltaAbs, Prod.ext_iff, abs_eq_zero, sub_eq_zero]
  constructor
  · rintro ⟨h1, h2, h3⟩; exact ⟨h1.symm, h2.symm, h3.symm⟩
  · rintro ⟨h1, h2, h3⟩; exact ⟨h1.symm, h2.symm, h3.symm⟩

/-- The guard of the stepping branch: distinct endpoints force a
positive max_delta, so the divisions there never divide by zero. -/
lemma maxDelta_pos {a b : V3} (h : a ≠ b) : 0 < maxDelta a b := by
  rcases lt_or_le 0 (maxDelta a b) with h1 | h1
  · exact h1
  · exfalso
    apply h
    simp only [maxDelta, max_le_iff] at h1
    have e1 : b.1 - a.1 = 0 := abs_nonpos_iff.mp h1.1.1
    have e2 : b.2.1 - a.2.1 = 0 := abs_nonpos_iff.mp h1.1.2
    have e3 : b.2.2 - a.2.2 = 0 := abs_nonpos_iff.mp h1.2
    simp only [Prod.ext_iff]
    omega

/-- Every line sweep contributes at least one voxel. -/
lemma lineSet_nonempty (a b : V3) : (lineSet a b).Nonempty := by
  by_cases h : deltaAbs a b = ((0 : ℤ), (0 : ℤ), (0 : ℤ))
  · simp [lineSet, h]
  · refine ⟨stepPoint a b 0, ?_⟩
    have hab : a ≠ b := fun e => h ((deltaAbs_eq_zero_iff a b).mpr e)
    have hpos : 0 < (maxDelta a b).toNat := by
      have := maxDelta_pos hab; omega
    simp only [lineSet, if_neg h, List.mem_toFinset, List.mem_map]
    exact ⟨0, List.mem_range.mpr hpos, rfl⟩

/-- Every triangle sweep contributes at least one voxel. -/
lemma triSet_nonempty (a b c : V3) : (triSet a b c).Nonempty := by
  by_cases h : deltaAbs a b = ((0 : ℤ), (0 : ℤ), (0 : ℤ))
  · simp [triSet, h]
  · have hab : a ≠ b := fun e => h ((deltaAbs_eq_zero_iff a b).mpr e)
    have hpos : 0 < (maxDelta a b).toNat := by
      have := maxDelta_pos hab; omega
    obtain ⟨m, hm⟩ : ∃ m, (maxDelta a b).toNat = m + 1 := ⟨_, (Nat.succ_pred_eq_of_pos hpos).symm⟩
    simp only [triSet, if_neg h, hm, List.range_succ, List.foldl_append, List.foldl_cons,
      List.foldl_nil]
    exact ((lineSet_nonempty (stepPoint a b m) c).mono Finset.subset_union_right)

/-- A fold by a function whose successive applications commute is
invariant under permutation of the list. -/
lemma foldl_perm_inv {α β : Type} (f : β → α → β)
    (H : ∀ b a1 a2, f (f b a1) a2 = f (f b a2) a1) :
    ∀ {l1 l2 : List α}, l1.Perm l2 → ∀ b, l1.foldl f b = l2.foldl f b := by
  intro l1 l2 h
  induction h with
  | nil => intro b; rfl
  | cons x _ ih => intro b; simp only [List.foldl_cons, ih]
  | swap x y l => intro b; simp only [List.foldl_cons, H]
  | trans _ _ ih1 ih2 => intro b; rw [ih1, ih2]

/-- The min merge of one bound component is commutative. -/
lemma omin_comm (a b : Option ℤ) : omin a b = omin b a := by
  cases a <;> cases b <;> simp [omin, min_comm]

/-- The min merge of one bound component is associative. -/
lemma omin_assoc (a b c : Option ℤ) : omin (omin a b) c = omin a (omin b c) := by
  cases a <;> cases b <;> cases c <;> simp [omin, min_assoc]

/-- The max merge of one bound component is commutative. -/
lemma omax_comm (a b : Option ℤ) : omax a b = omax b a := by
  cases a <;> cases b <;> simp [omax, max_comm]

/-- The max merge of one bound component is associative. -/
lemma omax_assoc (a b c : Option ℤ) : omax (omax a b) c = omax a (omax b c) := by
  cases a <;> cases b <;> cases c <;> simp [omax, max_assoc]

/-- Componentwise merges inherit commutativity. -/
lemma ovApply_comm {op : Option ℤ → Option ℤ → Option ℤ}
    (hc : ∀ a b, op a b = op b a) (m v : OV3) : ovApply op m v = ovApply op v m := by
  simp [ovApply, hc m.1 v.1, hc m.2.1 v.2.1, hc m.2.2 v.2.2]

/-- Componentwise merges inherit associativity. -/
lemma ovApply_assoc {op : Option ℤ → Option ℤ → Option ℤ}
    (ha : ∀ a b c, op (op a b) c = op a (op b c)) (m u w : OV3) :
    ovApply op (ovApply op m u) w = ovApply op m (ovApply op u w) := by
  simp [ovApply, ha]

/-- Successive triangle merges commute whenever the component merge is
commutative and associative. -/
lemma boundStep_swap {op : Option ℤ → Option ℤ → Option ℤ}
    (hc : ∀ a b, op a b = op b a) (ha : ∀ a b c, op (op a b) c = op a (op b c))
    (m : OV3) (t u : Triangle) :
    ovApply op (ovApply op (ovApply op
        (ovApply op (ovApply op (ovApply op m (inj t.v1)) (inj t.v2)) (inj t.v3))
        (inj u.v1)) (inj u.v2)) (inj u.v3) =
    ovApply op (ovApply op (ovApply op
        (ovApply op (ovApply op (ovApply op m (inj u.v1)) (inj u.v2)) (inj u.v3))
        (inj t.v1)) (inj t.v2)) (inj t.v3) := by
  haveI : Std.Associative (ovApply op) := ⟨ovApply_assoc ha⟩
  haveI : Std.Commutative (ovApply op) := ⟨ovApply_comm hc⟩
  ac_rfl

/-- The bound fold is invariant under permutations of the triangle
list whenever the component merge is commutative and associative. -/
lemma ovFold_perm {op : Option ℤ → Option ℤ → Option ℤ}
    (hc : ∀ a b, op a b = op b a) (ha : ∀ a b c, op (op a b) c = op a (op b c))
    {ts us : List Triangle} (h : ts.Perm us) : ovFold op ts = ovFold op us :=
  foldl_perm_inv _ (fun m t u => by exact boundStep_swap hc ha m t u) h _

/-- The triangle-level bound fold computes, in each component, the flat
fold of that component over all vertices in processing order. -/
lemma ovFold_components (op : Option ℤ → Option ℤ → Option ℤ) :
    ∀ (ts : List Triangle) (m : OV3),
      ts.foldl
        (fun m t => ovApply op (ovApply op (ovApply op m (inj t.v1)) (inj t.v2)) (inj t.v3)) m =
      (lFoldFrom op m.1 (compsX ts), lFoldFrom op m.2.1 (compsY ts),
        lFoldFrom op m.2.2 (compsZ ts)) := by
  intro ts
  induction ts with
  | nil => intro m; rfl
  | cons t ts ih =>
    intro m
    simp only [List.foldl_cons, ih]
    rfl

/-- The flat component fold started at a set value is the plain integer
minimum fold. -/
lemma lFoldFrom_min : ∀ (l : List ℤ) (a : ℤ),
    lFoldFrom omin (some a) l = some (l.foldl min a) := by
  intro l
  induction l with
  | nil => intro a; rfl
  | cons x l ih => intro a; simp only [lFoldFrom, List.foldl_cons] at ih ⊢; exact ih (min a x)

/-- The flat component fold started at a set value is the plain integer
maximum fold. -/
lemma lFoldFrom_max : ∀ (l : List ℤ) (a : ℤ),
    lFoldFrom omax (some a) l = some (l.foldl max a) := by
  intro l
  induction l with
  | nil => intro a; rfl
  | cons x l ih => intro a; simp only [lFoldFrom, List.foldl_cons] at ih ⊢; exact ih (max a x)

/-- A successful record parse implies the stream reaches past its
50-byte span. -/
lemma parseRecord_ok_length {data : List ℕ} {pos : ℕ} {cfg : Config} {t : Triangle}
    (h : parseRecord data pos cfg = .ok t) : pos + 50 ≤ data.length := by
  by_contra hlt
  rw [parseRecord, if_pos (by omega)] at h
  simp at h

/-- A successfully parsed record is a transform image. -/
lemma parseRecord_ok_shape {data : List ℕ} {pos : ℕ} {cfg : Config} {t : Triangle}
    (h : parseRecord data pos cfg = .ok t) :
    ∃ w1 w2 w3 : RV3, t = ⟨transform w1 cfg, transform w2 cfg, transform w3 cfg⟩ := by
  rw [parseRecord] at h
  split at h
  · simp at h
  · split at h
    · rename_i w1 w2 w3 _ _ _
      exact ⟨w1, w2, w3, by simpa using h.symm⟩
    · simp at h

/-- A successful run of the record loop parses exactly its iteration
count of records, the i-th output being the record at byte offset
pos + 50 i. -/
lemma parseRecords_ok (data : List ℕ) (cfg : Config) :
    ∀ (k pos : ℕ) (ts : List Triangle), parseRecords data cfg pos k = .ok ts →
      ts.length = k ∧
        ∀ (i : ℕ) (h : i < ts.length),
          parseRecord data (pos + 50 * i) cfg = .ok (ts.get ⟨i, h⟩) := by
  intro k
  induction k with
  | zero =>
    intro pos ts h
    simp only [parseRecords, Except.ok.injEq] at h
    subst h
    exact ⟨rfl, fun i hi => by simp at hi⟩
  | succ k ih =>
    intro pos ts h
    rw [parseRecords] at h
    cases hrec : parseRecord data pos cfg with
    | error e => rw [hrec] at h; simp at h
    | ok t =>
      rw [hrec] at h
      cases hrest : parseRecords data cfg (pos + 50) k with
      | error e => rw [hrest] at h; simp at h
      | ok ts' =>
        rw [hrest] at h
        simp only [Except.ok.injEq] at h
        subst h
        obtain ⟨hlen, hidx⟩ := ih (pos + 50) ts' hrest
        refine ⟨by simp [hlen], ?_⟩
        intro i hi
        cases i with
        | zero => simpa using hrec
        | succ j =>
          have hj : j < ts'.length := by simp at hi; omega
          have e : pos + 50 * (j + 1) = pos + 50 + 50 * j := by ring
          rw [e]
          exact hidx j hj

/-- A successful record loop run cannot extend past the end of the
stream unless it ran zero iterations. -/
lemma parseRecords_bound (data : List ℕ) (cfg : Config) :
    ∀ (k pos : ℕ) (ts : List Triangle), parseRecords data cfg pos k = .ok ts →
      k = 0 ∨ pos + 50 * k ≤ data.length := by
  intro k
  induction k with
  | zero => intro pos ts _; exact Or.inl rfl
  | succ k ih =>
    intro pos ts h
    rw [parseRecords] at h
    cases hrec : parseRecord data pos cfg with
    | error e => rw [hrec] at h; simp at h
    | ok t =>
      rw [hrec] at h
      cases hrest : parseRecords data cfg (pos + 50) k with
      | error e => rw [hrest] at h; simp at h
      | ok ts' =>
        have h1 := parseRecord_ok_length hrec
        rcases ih (pos + 50) ts' hrest with h2 | h2
        · subst h2; right; omega
        · right; omega

/-- With enough bytes and finite vertex floats, the record loop
succeeds and parses exactly its iteration count of records. -/
lemma parseRecords_complete (data : List ℕ) (cfg : Config) :
    ∀ (k pos : ℕ), pos + 50 * k ≤ data.length → recordsOk data pos k = true →
      ∃ ts, parseRecords data cfg pos k = .ok ts ∧ ts.length = k := by
  intro k
  induction k with
  | zero => intro pos _ _; exact ⟨[], rfl, rfl⟩
  | succ k ih =>
    intro pos hlen hok
    rw [recordsOk, Bool.and_eq_true] at hok
    obtain ⟨hok1, hok2⟩ := hok
    rw [recordOk, Bool.and_eq_true, Bool.and_eq_true] at hok1
    obtain ⟨⟨hs1, hs2⟩, hs3⟩ := hok1
    obtain ⟨w1, hw1⟩ := Option.isSome_iff_exists.mp hs1
    obtain ⟨w2, hw2⟩ := Option.isSome_iff_exists.mp hs2
    obtain ⟨w3, hw3⟩ := Option.isSome_iff_exists.mp hs3
    obtain ⟨ts', hts', hlen'⟩ := ih (pos + 50) (by omega) hok2
    refine ⟨⟨transform w1 cfg, transform w2 cfg, transform w3 cfg⟩ :: ts', ?_, by simp [hlen']⟩
    rw [parseRecords, parseRecord, if_neg (by omega), hw1, hw2, hw3, hts']

/-- A converted vertex token list that transforms successfully yields a
transform image. -/
lemma transformToks_shape {fs : List ℚ} {cfg : Config} {w : V3}
    (h : transformToks fs cfg = .ok w) : ∃ v : RV3, w = transform v cfg := by
  match fs, h with
  | x :: y :: z :: _, h =>
    refine ⟨(x, y, z), ?_⟩
    have h2 := h
    simp only [transformToks, Except.ok.injEq] at h2
    exact h2.symm
  | [], h => simp [transformToks] at h
  | [x], h => simp [transformToks] at h
  | [x, y], h => simp [transformToks] at h

/-- Every triangle produced by the ASCII facet loop is a triple of
transform images. -/
lemma loopFacets_shape (cfg : Config) :
    ∀ (fuel : ℕ) (lines : List (List ℕ)) (ts : List Triangle),
      loopFacets cfg fuel lines = .ok ts →
      ∀ t ∈ ts, ∃ w1 w2 w3 : RV3,
        t = ⟨transform w1 cfg, transform w2 cfg, transform w3 cfg⟩ := by
  intro fuel
  induction fuel with
  | zero =>
    intro lines ts h
    cases lines with
    | nil => simp only [loopFacets, Except.ok.injEq] at h; subst h; simp
    | cons nv rest => simp only [loopFacets, Except.ok.injEq] at h; subst h; simp
  | succ fuel ih =>
    intro lines ts h
    cases lines with
    | nil => simp only [loopFacets, Except.ok.injEq] at h; subst h; simp
    | cons nv rest =>
      rw [loopFacets] at h
      cases hdec : decodeUtf8 nv with
      | none => simp only [hdec] at h; simp at h
      | some s =>
        simp only [hdec] at h
        by_cases hend : leadsWith endsolidCp s
        · rw [if_pos hend] at h
          simp only [Except.ok.injEq] at h
          subst h; simp
        · rw [if_neg hend] at h
          cases hf1 : vertexFloats (nextLine (nextLine rest).2).1 with
          | error e => simp only [hf1] at h; simp at h
          | ok f1 =>
          simp only [hf1] at h
          cases hf2 : vertexFloats (nextLine (nextLine (nextLine rest).2).2).1 with
          | error e => simp only [hf2] at h; simp at h
          | ok f2 =>
          simp only [hf2] at h
          cases hf3 : vertexFloats (nextLine (nextLine (nextLine (nextLine rest).2).2).2).1 with
          | error e => simp only [hf3] at h; simp at h
          | ok f3 =>
          simp only [hf3] at h
          cases ht1 : transformToks f1 cfg with
          | error e => simp only [ht1] at h; simp at h
          | ok w1 =>
          simp only [ht1] at h
          cases ht2 : transformToks f2 cfg with
          | error e => simp only [ht2] at h; simp at h
          | ok w2 =>
          simp only [ht2] at h
          cases ht3 : transformToks f3 cfg with
          | error e => simp only [ht3] at h; simp at h
          | ok w3 =>
          simp only [ht3] at h
          cases hrest : loopFacets cfg fuel
              (nextLine (nextLine (nextLine (nextLine (nextLine (nextLine rest).2).2).2).2).2).2 with
          | error e => simp only [hrest] at h; simp at h
          | ok ts' =>
          simp only [hrest, Except.ok.injEq] at h
          subst h
          intro t ht
          rcases List.mem_cons.mp ht with rfl | hmem
          · obtain ⟨v1, hv1⟩ := transformToks_shape ht1
            obtain ⟨v2, hv2⟩ := transformToks_shape ht2
            obtain ⟨v3, hv3⟩ := transformToks_shape ht3
            exact ⟨v1, v2, v3, by rw [hv1, hv2, hv3]⟩
          · exact ih _ ts' hrest t hmem

/-- C4: for triangles over integer-component vertices, voxelization is
total: whenever the stepping branch runs (the zero-delta guard failed),
max_delta is strictly positive, so its divisions are never by zero; the
blocks map only grows; and compute_blocks on an empty accumulator always
produces at least one coordinate — no triangle yields zero voxels. -/
theorem voxelization_total :
    (∀ a b : V3, deltaAbs a b ≠ ((0 : ℤ), (0 : ℤ), (0 : ℤ)) → 0 < maxDelta a b) ∧
    (∀ (t : Triangle) (blocks : Finset V3), blocks ⊆ compute_blocks t blocks) ∧
    (∀ t : Triangle, (compute_blocks t ∅).Nonempty) := by
  refine ⟨?_, ?_, ?_⟩
  · intro a b hd
    exact maxDelta_pos fun e => hd ((deltaAbs_eq_zero_iff a b).mpr e)
  · intro t blocks
    rw [cb_eq]
    exact Finset.subset_union_left
  · intro t
    rw [cb_eq]
    refine ((triSet_nonempty t.v1 t.v2 t.v3).mono ?_).mono Finset.subset_union_right
    exact Finset.Subset.trans Finset.subset_union_left Finset.subset_union_left

/-- Witness for voxelization_total at concrete inputs. -/
theorem voxelization_total_witness :
    0 < maxDelta ((0 : ℤ), (0 : ℤ), (0 : ℤ)) ((1 : ℤ), (2 : ℤ), (3 : ℤ)) ∧
    ({((7 : ℤ), (8 : ℤ), (9 : ℤ))} : Finset V3) ⊆
      compute_blocks ⟨(0, 0, 0), (1, 0, 0), (0, 1, 0)⟩ {((7 : ℤ), (8 : ℤ), (9 : ℤ))} ∧
    (compute_blocks ⟨(0, 0, 0), (0, 0, 0), (0, 0, 0)⟩ (∅ : Finset V3)).Nonempty :=
  ⟨voxelization_total.1 _ _ (by decide), voxelization_total.2.1 _ _,
    voxelization_total.2.2 _⟩

/-- C5: rasterizing the segment from the origin to (4,0,0) into an empty
accumulator yields exactly the four points up to but excluding the
endpoint; and in general, for distinct endpoints, the loop emits the
rounded points a + step * step_vector for step in range(0, max_delta). -/
theorem segment_rasterization :
    compute_line_blocks ((0 : ℤ), (0 : ℤ), (0 : ℤ)) ((4 : ℤ), (0 : ℤ), (0 : ℤ)) ∅ =
      {((0 : ℤ), (0 : ℤ), (0 : ℤ)), ((1 : ℤ), (0 : ℤ), (0 : ℤ)),
        ((2 : ℤ), (0 : ℤ), (0 : ℤ)), ((3 : ℤ), (0 : ℤ), (0 : ℤ))} ∧
    ∀ (a b : V3) (s : Finset V3), a ≠ b →
      compute_line_blocks a b s =
        s ∪ ((List.range (maxDelta a b).toNat).map (stepPoint a b)).toFinset := by
  constructor
  · with_unfolding_all decide
  · intro a b s hab
    rw [clb_eq, lineSet, if_neg fun e => hab ((deltaAbs_eq_zero_iff a b).mp e)]

/-- Witness for the general part of segment_rasterization at a concrete
segment. -/
theorem segment_rasterization_witness :
    compute_line_blocks ((0 : ℤ), (0 : ℤ), (0 : ℤ)) ((0 : ℤ), (0 : ℤ), (2 : ℤ)) ∅ =
      ∅ ∪ ((List.range
          (maxDelta ((0 : ℤ), (0 : ℤ), (0 : ℤ)) ((0 : ℤ), (0 : ℤ), (2 : ℤ))).toNat).map
        (stepPoint ((0 : ℤ), (0 : ℤ), (0 : ℤ)) ((0 : ℤ), (0 : ℤ), (2 : ℤ)))).toFinset :=
  segment_rasterization.2 _ _ _ (by decide)

/-- C6: the voxel set compute_blocks produces is invariant under cyclic
rotation of the triangle's vertex order, because each invocation unions
the same three rotated sweeps. -/
theorem voxel_cyclic_invariance (v1 v2 v3 : V3) (s : Finset V3) :
    compute_blocks ⟨v1, v2, v3⟩ s = compute_blocks ⟨v2, v3, v1⟩ s ∧
    compute_blocks ⟨v1, v2, v3⟩ s = compute_blocks ⟨v3, v1, v2⟩ s := by
  haveI : Std.Associative (α := Finset V3) (· ∪ ·) := ⟨Finset.union_assoc⟩
  haveI : Std.Commutative (α := Finset V3) (· ∪ ·) := ⟨Finset.union_comm⟩
  constructor
  · simp only [cb_eq]
    congr 1
    ac_rfl
  · simp only [cb_eq]
    congr 1
    ac_rfl

/-- C7: the fully degenerate triangle (v, v, v) voxelizes to exactly the
single coordinate v. -/
theorem degenerate_triangle_single_voxel (v : V3) :
    compute_blocks ⟨v, v, v⟩ ∅ = {v} := by
  have h : deltaAbs v v = ((0 : ℤ), (0 : ℤ), (0 : ℤ)) := (deltaAbs_eq_zero_iff v v).mpr rfl
  simp [compute_blocks, compute_triangle_blocks, h, Finset.insert_idem]

/-- C9: with v1 = v2, a single compute_triangle_blocks call only inserts
v1 — it never rasterizes toward v3 — and on the empty accumulator yields
exactly one coordinate; in compute_blocks the segment to v3 comes only
from the other two rotated calls. -/
theorem coincident_vertices_single_insert (v1 v3 : V3) (s : Finset V3) (_h : v3 ≠ v1) :
    compute_triangle_blocks v1 v1 v3 s = insert v1 s ∧
    compute_triangle_blocks v1 v1 v3 ∅ = {v1} ∧
    compute_blocks ⟨v1, v1, v3⟩ ∅ =
      compute_triangle_blocks v1 v1 v3 ∅ ∪ compute_triangle_blocks v1 v3 v1 ∅ ∪
        compute_triangle_blocks v3 v1 v1 ∅ := by
  have hz : deltaAbs v1 v1 = ((0 : ℤ), (0 : ℤ), (0 : ℤ)) := (deltaAbs_eq_zero_iff v1 v1).mpr rfl
  refine ⟨?_, ?_, ?_⟩
  · rw [compute_triangle_blocks, if_pos hz]
  · rw [compute_triangle_blocks, if_pos hz]
    simp
  · simp only [cb_eq, ctb_eq, Finset.empty_union]

/-- Witness for coincident_vertices_single_insert at concrete inputs. -/
theorem coincident_vertices_single_insert_witness :
    compute_triangle_blocks ((0 : ℤ), (0 : ℤ), (0 : ℤ)) ((0 : ℤ), (0 : ℤ), (0 : ℤ))
        ((2 : ℤ), (0 : ℤ), (0 : ℤ)) {((9 : ℤ), (9 : ℤ), (9 : ℤ))} =
      insert ((0 : ℤ), (0 : ℤ), (0 : ℤ)) {((9 : ℤ), (9 : ℤ), (9 : ℤ))} ∧
    compute_triangle_blocks ((0 : ℤ), (0 : ℤ), (0 : ℤ)) ((0 : ℤ), (0 : ℤ), (0 : ℤ))
        ((2 : ℤ), (0 : ℤ), (0 : ℤ)) ∅ = {((0 : ℤ), (0 : ℤ), (0 : ℤ))} ∧
    compute_blocks ⟨((0 : ℤ), (0 : ℤ), (0 : ℤ)), ((0 : ℤ), (0 : ℤ), (0 : ℤ)),
        ((2 : ℤ), (0 : ℤ), (0 : ℤ))⟩ ∅ =
      compute_triangle_blocks ((0 : ℤ), (0 : ℤ), (0 : ℤ)) ((0 : ℤ), (0 : ℤ), (0 : ℤ))
          ((2 : ℤ), (0 : ℤ), (0 : ℤ)) ∅ ∪
        compute_triangle_blocks ((0 : ℤ), (0 : ℤ), (0 : ℤ)) ((2 : ℤ), (0 : ℤ), (0 : ℤ))
          ((0 : ℤ), (0 : ℤ), (0 : ℤ)) ∅ ∪
        compute_triangle_blocks ((2 : ℤ), (0 : ℤ), (0 : ℤ)) ((0 : ℤ), (0 : ℤ), (0 : ℤ))
          ((0 : ℤ), (0 : ℤ), (0 : ℤ)) ∅ :=
  coincident_vertices_single_insert _ _ _ (by decide)

/-- C8: the bounding box reported after the main loop equals, in each
dimension, the fold of the min and max merges over all vertex components
seen in processing order, where a None dimension takes the first real
value merged into it; the result is invariant under reordering of the
triangle list, and the set-component folds compute the plain integer
minimum and maximum. -/
theorem bounding_box_min_max :
    (∀ ts us : List Triangle, ts.Perm us → runBounds ts = runBounds us) ∧
    (∀ ts : List Triangle,
      runMin ts = (lFold omin (compsX ts), lFold omin (compsY ts), lFold omin (compsZ ts)) ∧
      runMax ts = (lFold omax (compsX ts), lFold omax (compsY ts), lFold omax (compsZ ts))) ∧
    (∀ (x : ℤ) (l : List ℤ),
      lFold omin (x :: l) = some (l.foldl min x) ∧
      lFold omax (x :: l) = some (l.foldl max x)) := by
  refine ⟨?_, ?_, ?_⟩
  · intro ts us hp
    unfold runBounds runMin runMax
    rw [ovFold_perm omin_comm omin_assoc hp, ovFold_perm omax_comm omax_assoc hp]
  · intro ts
    exact ⟨ovFold_components omin ts (none, none, none),
      ovFold_components omax ts (none, none, none)⟩
  · intro x l
    exact ⟨lFoldFrom_min l x, lFoldFrom_max l x⟩

/-- Witness for bounding_box_min_max: two triangles spanning (-2,0,0)
through (5,5,5), processed in both orders. -/
theorem bounding_box_min_max_witness :
    runBounds [⟨(-2, 0, 0), (5, 5, 5), (0, 1, 2)⟩, ⟨(1, 2, 3), (0, 0, 0), (3, 3, 3)⟩] =
      runBounds [⟨(1, 2, 3), (0, 0, 0), (3, 3, 3)⟩, ⟨(-2, 0, 0), (5, 5, 5), (0, 1, 2)⟩] ∧
    runMin [⟨(-2, 0, 0), (5, 5, 5), (0, 1, 2)⟩, ⟨(1, 2, 3), (0, 0, 0), (3, 3, 3)⟩] =
      (some (-2), some 0, some 0) ∧
    runMax [⟨(-2, 0, 0), (5, 5, 5), (0, 1, 2)⟩, ⟨(1, 2, 3), (0, 0, 0), (3, 3, 3)⟩] =
      (some 5, some 5, some 5) :=
  ⟨bounding_box_min_max.1 _ _ (List.Perm.swap _ _ _),
    by with_unfolding_all decide, by with_unfolding_all decide⟩

/-- C1: for a binary stream long enough to hold its header, count field
and the first n-1 declared records, with finite vertex floats,
parse_binary succeeds and returns exactly n-1 triangles — one fewer than
the declared count n — reading the 50-byte records in declaration order
from offset 84; in particular a stream with at least the 84 header and
count bytes declaring count 1 yields the empty triangle list. -/
theorem binary_count_off_by_one :
    (∀ (data : List ℕ) (cfg : Config),
      84 + 50 * (u32count data - 1) ≤ data.length →
      recordsOk data 84 (u32count data - 1) = true →
      ∃ ts, parse_binary data cfg = .ok ts ∧ ts.length = u32count data - 1 ∧
        ∀ (i : ℕ) (h : i < ts.length),
          parseRecord data (84 + 50 * i) cfg = .ok (ts.get ⟨i, h⟩)) ∧
    (∀ (data : List ℕ) (cfg : Config), 84 ≤ data.length → u32count data = 1 →
      parse_binary data cfg = .ok []) := by
  constructor
  · intro data cfg hlen hok
    obtain ⟨ts, hts, hl⟩ := parseRecords_complete data cfg (u32count data - 1) 84 hlen hok
    refine ⟨ts, ?_, hl, ?_⟩
    · rw [parse_binary, if_neg (by omega)]
      exact hts
    · intro i hi
      exact (parseRecords_ok data cfg _ 84 ts hts).2 i hi
  · intro data cfg hlen hcount
    rw [parse_binary, if_neg (by omega), hcount]
    rfl

set_option maxRecDepth 40000 in
/-- Witness for binary_count_off_by_one: a count-2 stream with one
all-zero record, and a count-1 stream with no records. -/
theorem binary_count_off_by_one_witness :
    (∃ ts, parse_binary binCount2 cfg0 = .ok ts ∧ ts.length = u32count binCount2 - 1 ∧
      ∀ (i : ℕ) (h : i < ts.length),
        parseRecord binCount2 (84 + 50 * i) cfg0 = .ok (ts.get ⟨i, h⟩)) ∧
    parse_binary binCount1 cfg0 = .ok [] :=
  ⟨binary_count_off_by_one.1 binCount2 cfg0 (by decide) (by decide),
    binary_count_off_by_one.2 binCount1 cfg0 (by decide) (by decide)⟩

set_option maxRecDepth 40000 in
/-- C2 counterexample: this well-formed one-facet ASCII stream is
truncated before any endsolid terminator — a structural violation of the
grammar — yet parsing accepts it and returns its triangle instead of
failing with any error: the facet iterator just runs out of lines.
Under the default configuration the transform maps (x,y,z) to (x,z,y). -/
theorem malformed_mesh_counterexample :
    parse_ascii asciiTruncated cfg0 = .ok [⟨(0, 0, 0), (1, 0, 0), (0, 0, 1)⟩] ∧
    mainParse asciiTruncated cfg0 = .ok [⟨(0, 0, 0), (1, 0, 0), (0, 0, 1)⟩] := by
  constructor <;> with_unfolding_all decide

set_option maxRecDepth 40000 in
/-- C2 amended: a short or truncated binary stream is never silently
accepted — parse_binary succeeds only when the stream reaches the end of
the last of its count-1 records — and an unparseable ASCII numeric
literal fails the run with a ValueError; but the errors carry no byte
offset or line number (the exceptions are bare struct.error, ValueError,
IndexError, UnicodeDecodeError), and an ASCII stream missing its
endsolid terminator is accepted silently, so not every grammar violation
fails. -/
theorem malformed_mesh_amended :
    (∀ (data : List ℕ) (cfg : Config) (ts : List Triangle),
      parse_binary data cfg = .ok ts → 84 + 50 * (u32count data - 1) ≤ data.length) ∧
    parse_ascii asciiBadLiteral cfg0 = .error .valueError ∧
    (∃ ts, parse_ascii asciiTruncated cfg0 = .ok ts ∧ ts ≠ []) := by
  refine ⟨?_, ?_, ?_⟩
  · intro data cfg ts h
    rw [parse_binary] at h
    by_cases hl : data.length < 84
    · rw [if_pos hl] at h; simp at h
    · rw [if_neg hl] at h
      rcases parseRecords_bound data cfg _ 84 ts h with h0 | h0
      · rw [h0]; omega
      · exact h0
  · with_unfolding_all decide
  · exact ⟨[⟨(0, 0, 0), (1, 0, 0), (0, 0, 1)⟩], by with_unfolding_all decide, by decide⟩

/-- Witness for malformed_mesh_amended at a concrete accepted stream. -/
theorem malformed_mesh_amended_witness :
    84 + 50 * (u32count binCount1 - 1) ≤ binCount1.length :=
  malformed_mesh_amended.1 binCount1 cfg0 [] (by decide)

set_option maxRecDepth 40000 in
/-- C3 counterexample: this stream's 5-byte prefix is not the solid
signature, so the claim says binary parsing is used — but the prefix is
also not UTF-8 decodable, so the run dies decoding the peeked header
with an uncaught UnicodeDecodeError instead of parsing binary, even
though parse_binary accepts the very same stream. -/
theorem encoding_dispatch_counterexample :
    mainParse binBadPrefix cfg0 = .error .unicodeDecodeError ∧
    parse_binary binBadPrefix cfg0 = .ok [] ∧
    mainParse binBadPrefix cfg0 ≠ parse_binary binBadPrefix cfg0 := by
  refine ⟨?_, ?_, ?_⟩ <;> with_unfolding_all decide

/-- C3 amended: peeking never consumes — peek returns the next bytes and
the unchanged handle; when the 5-byte prefix decodes as UTF-8 to
anything other than solid, binary parsing is used; when it decodes to
solid, text parsing is attempted, its result is returned on success, and
on a UnicodeDecodeError the run falls back to binary parsing of the
same stream from the start; but a prefix that fails UTF-8 decoding
crashes the dispatch itself (see the counterexample), so the binary
branch is not reached for every non-solid stream. -/
theorem encoding_dispatch_amended :
    (∀ (fh : FH) (n : ℕ), peek fh n = ((fh.data.drop fh.pos).take n, fh)) ∧
    (∀ (data : List ℕ) (cfg : Config) (s : List ℕ),
      decodeUtf8 (data.take 5) = some s → s ≠ solidCp →
      mainParse data cfg = parse_binary data cfg) ∧
    (∀ (data : List ℕ) (cfg : Config),
      decodeUtf8 (data.take 5) = some solidCp →
      parse_ascii data cfg = .error .unicodeDecodeError →
      mainParse data cfg = parse_binary data cfg) ∧
    (∀ (data : List ℕ) (cfg : Config) (ts : List Triangle),
      decodeUtf8 (data.take 5) = some solidCp → parse_ascii data cfg = .ok ts →
      mainParse data cfg = .ok ts) := by
  have hpk : ∀ data : List ℕ, (peek ⟨data, 0⟩ 5).1 = data.take 5 := fun data => rfl
  refine ⟨?_, ?_, ?_, ?_⟩
  · intro fh n
    rfl
  · intro data cfg s hdec hs
    rw [mainParse, hpk, hdec]
    simp only [if_neg hs]
  · intro data cfg hdec hasc
    rw [mainParse, hpk, hdec]
    simp only [if_pos rfl, hasc]
    rfl
  · intro data cfg ts hdec hok
    rw [mainParse, hpk, hdec]
    simp [hok]

/-- Witness for encoding_dispatch_amended: a non-solid binary stream, a
solid-prefixed stream whose text parse dies decoding, and a pure ASCII
stream. -/
theorem encoding_dispatch_amended_witness :
    peek ⟨[1, 2, 3], 1⟩ 5 = ((([1, 2, 3] : List ℕ).drop 1).take 5, ⟨[1, 2, 3], 1⟩) ∧
    mainParse binCount1 cfg0 = parse_binary binCount1 cfg0 ∧
    mainParse asciiUndecodable cfg0 = parse_binary asciiUndecodable cfg0 ∧
    mainParse asciiTruncated cfg0 = .ok [⟨(0, 0, 0), (1, 0, 0), (0, 0, 1)⟩] :=
  ⟨encoding_dispatch_amended.1 _ _,
    encoding_dispatch_amended.2.1 binCount1 cfg0 [0, 0, 0, 0, 0] (by decide) (by decide),
    encoding_dispatch_amended.2.2.1 asciiUndecodable cfg0 (by decide)
      (by with_unfolding_all decide),
    encoding_dispatch_amended.2.2.2 asciiTruncated cfg0 _ (by decide)
      (by with_unfolding_all decide)⟩

/-- C10: every triangle returned by parse_binary or parse_ascii is a
triple of transform images — transform applies round as its final step,
and Python's round returns an int, so all nine vertex components are
integers, which the model renders by transform's integer codomain;
consequently the voxelizer's delta vector has nonnegative integer
components and max_delta is a positive integer whenever the
non-degenerate stepping branch is taken. -/
theorem parsed_triangles_integer_vertices :
    (∀ (data : List ℕ) (cfg : Config) (ts : List Triangle),
      parse_binary data cfg = .ok ts → ∀ t ∈ ts, ∃ w1 w2 w3 : RV3,
        t = ⟨transform w1 cfg, transform w2 cfg, transform w3 cfg⟩) ∧
    (∀ (data : List ℕ) (cfg : Config) (ts : List Triangle),
      parse_ascii data cfg = .ok ts → ∀ t ∈ ts, ∃ w1 w2 w3 : RV3,
        t = ⟨transform w1 cfg, transform w2 cfg, transform w3 cfg⟩) ∧
    (∀ a b : V3, 0 ≤ (deltaAbs a b).1 ∧ 0 ≤ (deltaAbs a b).2.1 ∧ 0 ≤ (deltaAbs a b).2.2) ∧
    (∀ a b : V3, a ≠ b → 0 < maxDelta a b) := by
  refine ⟨?_, ?_, ?_, ?_⟩
  · intro data cfg ts h t ht
    rw [parse_binary] at h
    by_cases hl : data.length < 84
    · rw [if_pos hl] at h; simp at h
    · rw [if_neg hl] at h
      obtain ⟨hlen, hidx⟩ := parseRecords_ok data cfg _ 84 ts h
      obtain ⟨i, hi⟩ := List.mem_iff_get.mp ht
      have := parseRecord_ok_shape (hidx i.1 i.2)
      rwa [hi] at this
  · intro data cfg ts h
    rw [parse_ascii] at h
    cases hsp : splitLines data with
    | nil =>
      simp only [hsp, Except.ok.injEq] at h
      subst h; simp
    | cons hdr rest =>
      simp only [hsp] at h
      exact loopFacets_shape cfg _ _ _ h
  · intro a b
    exact ⟨abs_nonneg _, abs_nonneg _, abs_nonneg _⟩
  · intro a b hab
    exact maxDelta_pos hab

set_option maxRecDepth 40000 in
/-- Witness for parsed_triangles_integer_vertices at a parsed binary
stream, a parsed ASCII stream, and a concrete vertex pair. -/
theorem parsed_triangles_integer_vertices_witness :
    (∀ t ∈ [(⟨(0, 0, 0), (0, 0, 0), (0, 0, 0)⟩ : Triangle)], ∃ w1 w2 w3 : RV3,
      t = ⟨transform w1 cfg0, transform w2 cfg0, transform w3 cfg0⟩) ∧
    (∀ t ∈ [(⟨(0, 0, 0), (1, 0, 0), (0, 0, 1)⟩ : Triangle)], ∃ w1 w2 w3 : RV3,
      t = ⟨transform w1 cfg0, transform w2 cfg0, transform w3 cfg0⟩) ∧
    0 < maxDelta ((0 : ℤ), (0 : ℤ), (0 : ℤ)) ((1 : ℤ), (0 : ℤ), (0 : ℤ)) :=
  ⟨parsed_triangles_integer_vertices.1 binCount2 cfg0 _ (by with_unfolding_all decide),
    parsed_triangles_integer_vertices.2.1 asciiTruncated cfg0 _ (by with_unfolding_all decide),
    parsed_triangles_integer_vertices.2.2.2 _ _ (by decide)⟩
